import Mathlib

/-!
Verification development for the telbot auto-posting program
(`telbot/telbot.py`).

The program periodically publishes media assets to a rotating set of
Telegram channels.  This file contains a shallow embedding of the parts
of the program that the verified properties talk about:

* the round-robin channel rotation (`TelegramPoster.get_next_channel`),
* the restart-delay computation (`TelegramPoster.start_posting`),
* asset selection and the post-and-delete step
  (`TelegramPoster.get_random_image`, `TelegramPoster.post_and_delete`),
* the media-group (album) debounce buffer
  (`ContentUploader.handle_album_message` / `_process_album`),
* the API-error hint classifier inside `TelegramPoster._posting_tick`,
* the low-content edge-triggered monitor
  (`TelegramPoster._check_low_content`, `get_low_content_channels`),
* the collision-avoiding file-name generator
  (`generate_unique_filename`),
* rotation-state loading, clamping and persistence
  (`TelegramPoster._load_state`, `_save_state`, `cmd_reload`).

Modelling conventions: wall-clock instants and durations are integers
(seconds); Python dictionaries become association lists; the Telegram
transport, the random generator and the file system are oracles passed
as explicit arguments; Python's `str.lower` is modelled by an
ASCII-adequate `toLowerStr` (all matched patterns are ASCII).
-/

namespace Telbot

/-! ## String utilities -/

/-- Lower-casing of a string, character by character.  Models Python's
`str.lower()` for the ASCII fragment relevant to the matched patterns. -/
def toLowerStr (s : String) : String := (s.toList.map Char.toLower).asString

/-- Does the needle occur as a contiguous block at the head of the haystack? -/
def headBlock : List Char → List Char → Bool
  | _, [] => true
  | [], _ :: _ => false
  | a :: as, b :: bs => a == b && headBlock as bs

/-- Does the needle occur somewhere inside the haystack? -/
def hasSub : List Char → List Char → Bool
  | [], n => n.isEmpty
  | c :: t, n => headBlock (c :: t) n || hasSub t n

/-- Substring test on strings: models the Python expression
`pattern in text`. -/
def containsSub (text pattern : String) : Bool := hasSub text.toList pattern.toList

/-- Index at which Python's `pathlib` splits a file name into stem and
suffix: the position of the last dot, provided that dot is neither the
first nor the last character; `none` otherwise. -/
def extSplitIdx (cs : List Char) : Option Nat :=
  match ((List.range cs.length).filter (fun i => cs.getD i ' ' == '.')).getLast? with
  | none => none
  | some i => if 0 < i ∧ i + 1 < cs.length then some i else none

/-- Split a file name into `(stem, suffix)` following Python's
`Path(name).stem` / `Path(name).suffix` semantics. -/
def splitExt (s : String) : String × String :=
  match extSplitIdx s.toList with
  | none => (s, "")
  | some i => ((s.toList.take i).asString, (s.toList.drop i).asString)

/-- Big-endian decimal digits of `n`, written with explicit recursion
fuel so that the definition is structural (the fuel `n + 1` always
suffices).  Models Python's decimal formatting of an integer. -/
def decimalReprAux : Nat → Nat → List Char
  | 0, _ => []
  | fuel + 1, n => if n = 0 then [] else decimalReprAux fuel (n / 10) ++ [Nat.digitChar (n % 10)]

/-- Decimal string of a natural number, models Python's `str(n)` /
`f-string` formatting used when building suffixed file names. -/
def decimalRepr (n : Nat) : String :=
  if n = 0 then "0" else (decimalReprAux (n + 1) n).asString

/-! ## Restart delay (`TelegramPoster.start_posting`) -/

/-- Embeds the first-delay computation of `TelegramPoster.start_posting`:
`first_delay = 10`; if a last post time is recorded, `elapsed` is the
time since it and `remaining = interval_min * 60 - elapsed`; if
`remaining > 0` the first delay becomes `remaining`, otherwise it stays
at the 10-second default.  All times are in seconds. -/
def firstDelay (intervalMin : Int) (lastPostTime : Option Int) (now : Int) : Int :=
  match lastPostTime with
  | none => 10
  | some t =>
    let elapsed := now - t
    let remaining := intervalMin * 60 - elapsed
    if remaining > 0 then remaining else 10

/-- C2, counterexample.  The claim asserts that when the elapsed time
since the last publish reaches the interval, the first tick is scheduled
immediately (delay 0).  With a 30-minute interval, a last publish at
time 0 and a restart at time 1800 the code schedules the first tick
after the fixed 10-second default, not after 0 seconds. -/
theorem firstDelay_not_zero_when_elapsed : ¬ firstDelay 30 (some 0) 1800 = 0 := by
  decide

/-- C2, amended.  Restarting at `T + d` with `0 < d < intervalMin * 60`
schedules the first tick after `intervalMin * 60 - d` seconds (i.e. at
`T + interval`); if `d` reaches the interval, or no last publish time is
recorded, the first tick is scheduled after the fixed 10-second default
delay (not 0). -/
theorem firstDelay_spec (intervalMin T d now : Int) :
    (0 < d → d < intervalMin * 60 → firstDelay intervalMin (some T) (T + d) = intervalMin * 60 - d)
    ∧ (intervalMin * 60 ≤ d → firstDelay intervalMin (some T) (T + d) = 10)
    ∧ firstDelay intervalMin none now = 10 := by
  refine ⟨fun h1 h2 => ?_, fun h1 => ?_, rfl⟩
  · simp only [firstDelay]
    have : T + d - T = d := by omega
    rw [this]
    rw [if_pos (by omega)]
  · simp only [firstDelay]
    have : T + d - T = d := by omega
    rw [this]
    rw [if_neg (by omega)]

/-- Witness for `firstDelay_spec`: a 30-minute interval with 600 seconds
already elapsed yields a 1200-second first delay, and an elapsed time of
7200 seconds yields the 10-second default. -/
theorem firstDelay_spec_witness :
    firstDelay 30 (some 100) (100 + 600) = 30 * 60 - 600
    ∧ firstDelay 30 (some 100) (100 + 7200) = 10 :=
  ⟨(firstDelay_spec 30 100 600 0).1 (by decide) (by decide),
   (firstDelay_spec 30 100 7200 0).2.1 (by decide)⟩

/-! ## Poster data model -/

/-- One media asset under a channel of the content tree: its file name
and the category folder it lives in. -/
structure Image where
  name : String
  category : String
  deriving DecidableEq

/-- The record persisted by `TelegramPoster._save_state` (the
`last_update` bookkeeping field of the JSON is not modelled). -/
structure SavedRecord where
  currentChannelIndex : Nat
  isPosting : Bool
  lastPostTime : Option Int
  deriving DecidableEq

/-- The mutable state of a `TelegramPoster` together with the part of the
file system it touches: the per-channel asset lists of the content tree
and the persisted state file. -/
structure PostState where
  channelsList : List String
  currentChannelIndex : Nat
  isPosting : Bool
  lastPostTime : Option Int
  content : List (String × List Image)
  stateFile : Option SavedRecord
  deriving DecidableEq

/-- Embeds `TelegramPoster._save_state`: writes the current rotation
record to the state file. -/
def saveState (st : PostState) : PostState :=
  { st with stateFile := some ⟨st.currentChannelIndex, st.isPosting, st.lastPostTime⟩ }

/-- Embeds `TelegramPoster._load_state`: reads the stored index and last
post time (defaults: 0 and none when the file is missing or unreadable)
and resets the index to 0 when it is out of range for the current
channel list.  Returns the resulting `(index, lastPostTime)`. -/
def loadState (channels : List String) (stored : Option SavedRecord) : Nat × Option Int :=
  match stored with
  | none => (0, none)
  | some r =>
    (if r.currentChannelIndex ≥ channels.length then 0 else r.currentChannelIndex,
     r.lastPostTime)

/-- Embeds `TelegramPoster.get_next_channel`: returns `none` on an empty
channel list, otherwise the channel at the current index, advancing the
index cyclically and persisting the state.  The inner `none` branch
models the `IndexError` Python would raise on an out-of-range index; it
is unreachable while the index invariant holds. -/
def getNextChannel (st : PostState) : Option String × PostState :=
  if st.channelsList.isEmpty then (none, st)
  else
    match st.channelsList[st.currentChannelIndex]? with
    | none => (none, st)
    | some ch =>
        (some ch,
          saveState { st with
            currentChannelIndex := (st.currentChannelIndex + 1) % st.channelsList.length })

/-- Embeds the channel-list refresh of `cmd_reload`: the poster's channel
list is replaced by the newly enabled channels and the rotation index is
reset to 0 when it is out of range for the new list. -/
def reloadChannels (st : PostState) (newChannels : List String) : PostState :=
  if st.currentChannelIndex ≥ newChannels.length then
    { st with channelsList := newChannels, currentChannelIndex := 0 }
  else
    { st with channelsList := newChannels }

/-- C8: the rotation index is always a valid position in the current
enabled-channel list.  State loading clamps an out-of-range stored index
to 0; advancing the index preserves validity; reloading the
configuration preserves validity for a non-empty new list and clamps the
index to 0 whenever the new list is too short. -/
theorem rotation_index_invariant :
    (∀ (channels : List String) (stored : Option SavedRecord),
      channels ≠ [] → (loadState channels stored).1 < channels.length)
    ∧ (∀ st : PostState,
      st.currentChannelIndex < st.channelsList.length →
        ((getNextChannel st).2).currentChannelIndex < st.channelsList.length)
    ∧ (∀ (st : PostState) (newChannels : List String),
      newChannels ≠ [] →
        (reloadChannels st newChannels).currentChannelIndex < newChannels.length)
    ∧ (∀ (st : PostState) (newChannels : List String),
      newChannels.length ≤ st.currentChannelIndex →
        (reloadChannels st newChannels).currentChannelIndex = 0) := by
  refine ⟨fun channels stored hne => ?_, fun st hi => ?_, fun st newChannels hne => ?_,
    fun st newChannels hle => ?_⟩
  · have hpos : 0 < channels.length := List.length_pos.mpr hne
    cases stored with
    | none => simpa [loadState]
    | some r =>
      simp only [loadState]
      split
      · exact hpos
      · omega
  · have hpos : 0 < st.channelsList.length := by omega
    have hne : ¬ st.channelsList.isEmpty := by
      simp [List.isEmpty_iff]
      exact List.ne_nil_of_length_pos hpos
    simp only [getNextChannel, hne, Bool.false_eq_true, if_false]
    rw [List.getElem?_eq_getElem hi]
    simpa [saveState] using Nat.mod_lt _ hpos
  · have hpos : 0 < newChannels.length := List.length_pos.mpr hne
    simp only [reloadChannels]
    split
    · exact hpos
    · show st.currentChannelIndex < newChannels.length
      omega
  · simp only [reloadChannels]
    rw [if_pos (by omega)]

/-- Witness for `rotation_index_invariant` at concrete inputs: loading a
stored index 7 against a 2-channel list clamps to 0; advancing from
index 1 stays in range; shrinking the list from under index 1 clamps the
index to 0. -/
theorem rotation_index_invariant_witness :
    (Telbot.loadState ["a", "b"] (some ⟨7, true, none⟩)).1 < 2
    ∧ ((Telbot.getNextChannel ⟨["a", "b"], 1, true, none, [], none⟩).2).currentChannelIndex < 2
    ∧ (Telbot.reloadChannels ⟨["a", "b"], 1, true, none, [], none⟩ ["c"]).currentChannelIndex = 0 :=
  ⟨rotation_index_invariant.1 ["a", "b"] (some ⟨7, true, none⟩) (by decide),
   rotation_index_invariant.2.1 ⟨["a", "b"], 1, true, none, [], none⟩ (by decide),
   rotation_index_invariant.2.2.2 ⟨["a", "b"], 1, true, none, [], none⟩ ["c"] (by decide)⟩

/-! ## Persistence as file operations (`TelegramPoster._save_state`) -/

/-- Primitive file-system operations, used to analyse crash behaviour of
the state save. -/
inductive FileOp where
  | truncate (path : String)
  | writeAll (path : String) (data : String)
  | rename (src dst : String)
  deriving DecidableEq

/-- Contents of a file in a flat file system given as an association
list from path to contents. -/
def lookupFile (fs : List (String × String)) (path : String) : Option String :=
  match fs.find? (fun p => p.1 == path) with
  | some p => some p.2
  | none => none

/-- Overwrite (or create) the file at `path`. -/
def setFile (fs : List (String × String)) (path data : String) : List (String × String) :=
  if fs.any (fun p => p.1 == path) then
    fs.map (fun p => if p.1 == path then (p.1, data) else p)
  else fs ++ [(path, data)]

/-- Remove the file at `path`. -/
def removeFile (fs : List (String × String)) (path : String) : List (String × String) :=
  fs.filter (fun p => !(p.1 == path))

/-- Effect of one primitive file operation. -/
def applyOp (fs : List (String × String)) : FileOp → List (String × String)
  | FileOp.truncate path => setFile fs path ""
  | FileOp.writeAll path data => setFile fs path ((lookupFile fs path).getD "" ++ data)
  | FileOp.rename src dst =>
      match lookupFile fs src with
      | some d => setFile (removeFile fs src) dst d
      | none => fs

/-- Effect of a sequence of file operations. -/
def applyOps (fs : List (String × String)) (ops : List FileOp) : List (String × String) :=
  ops.foldl applyOp fs

/-- Name of the rotation-state file (`posting_state.json`). -/
def stateFileName : String := "posting_state.json"

/-- JSON-like encoding of a `SavedRecord`, as produced by `json.dumps`
in `_save_state` (the `last_update` field is not modelled and the last
post time is rendered from the integer instant). -/
def encodeState (r : SavedRecord) : String :=
  "\x7b\"current_channel_index\": " ++ decimalRepr r.currentChannelIndex
    ++ ", \"is_posting\": " ++ (if r.isPosting then "true" else "false")
    ++ ", \"last_post_time\": "
    ++ (match r.lastPostTime with
        | none => "null"
        | some t => "\"" ++ (if t < 0 then "-" else "") ++ decimalRepr t.natAbs ++ "\"")
    ++ "\x7d"

/-- Primitive operations performed by `Path.write_text`: open the file
for writing, which truncates it, then write the full payload. -/
def writeTextOps (path data : String) : List FileOp :=
  [FileOp.truncate path, FileOp.writeAll path data]

/-- Embeds `TelegramPoster._save_state`: a single direct `write_text` of
the encoded record to the state file — no temporary file, no rename. -/
def saveStateOps (r : SavedRecord) : List FileOp :=
  writeTextOps stateFileName (encodeState r)

/-- Modelled from the spec's atomicity requirement: a sequence of file
operations persists `newContent` to `target` atomically when every
crash prefix leaves `target` holding either its previous contents or the
complete new contents. -/
def crashSafe (ops : List FileOp) (target : String) (fs : List (String × String))
    (newContent : String) : Prop :=
  ∀ k, k ≤ ops.length →
    lookupFile (applyOps fs (ops.take k)) target = lookupFile fs target ∨
    lookupFile (applyOps fs (ops.take k)) target = some newContent

/-- C9, counterexample.  Saving the rotation state is not atomic: with a
previous record on disk, a crash after the open-and-truncate step of
`write_text` leaves the state file empty — neither the old nor the new
record. -/
theorem saveState_not_crashSafe :
    ¬ crashSafe (saveStateOps ⟨0, false, none⟩) stateFileName
        [(stateFileName, "old")] (encodeState ⟨0, false, none⟩) := by
  intro h
  exact absurd (h 1 (by decide)) (by decide)

/-- On a file system, `setFile` makes `path` hold exactly `data`. -/
theorem lookupFile_setFile (fs : List (String × String)) (path data : String) :
    lookupFile (setFile fs path data) path = some data := by
  simp only [setFile]
  split
  case isTrue hany =>
    induction fs with
    | nil => simp at hany
    | cons p rest ih =>
      cases hp : (p.1 == path) with
      | true =>
        simp only [List.map_cons, hp, if_true, lookupFile]
        rw [List.find?_cons_of_pos _ (by simpa using hp)]
      | false =>
        simp only [List.any_cons, hp, Bool.false_or] at hany
        simp only [List.map_cons, hp, Bool.false_eq_true, if_false, lookupFile] at ih ⊢
        rw [List.find?_cons_of_neg _ (by simp [hp])]
        exact ih hany
  case isFalse hany =>
    induction fs with
    | nil =>
      simp only [List.nil_append, lookupFile]
      rw [List.find?_cons_of_pos _ (by simp)]
    | cons p rest ih =>
      simp only [List.any_cons, Bool.or_eq_true, not_or] at hany
      have hp : (p.1 == path) = false := by
        cases hbe : p.1 == path
        · rfl
        · exact absurd hbe hany.1
      simp only [List.cons_append, lookupFile] at ih ⊢
      rw [List.find?_cons_of_neg _ (by simp [hp])]
      exact ih (by simp [hany.2])

/-- An encoded record is never the empty string (it starts with a
brace). -/
theorem encodeState_ne_empty (r : SavedRecord) : encodeState r ≠ "" := by
  intro h
  have hlen := congrArg String.length h
  simp only [encodeState, String.length_append] at hlen
  have h1 : 0 < ("\x7b\"current_channel_index\": " : String).length := by decide
  have h0 : ("" : String).length = 0 := by decide
  rw [h0] at hlen
  omega

/-- C9, amended.  `_save_state` persists the record with a single direct
truncate-and-write to the state file: running the save to completion
stores exactly the encoded record, but the write is not atomic — for any
previous non-empty contents there is a crash point (after the
truncation) at which the state file holds neither the previous nor the
new record. -/
theorem saveState_direct_write (r : SavedRecord) (fs : List (String × String)) :
    lookupFile (applyOps fs (saveStateOps r)) stateFileName = some (encodeState r)
    ∧ ∀ old : String, old ≠ "" →
        ¬ crashSafe (saveStateOps r) stateFileName [(stateFileName, old)] (encodeState r) := by
  constructor
  · simp only [applyOps, saveStateOps, writeTextOps, List.foldl, applyOp]
    rw [lookupFile_setFile]
    rw [lookupFile_setFile]
    rw [Option.getD_some, String.empty_append]
  · intro old hold h
    have h1 := h 1 (by simp [saveStateOps, writeTextOps])
    have htake : (saveStateOps r).take 1 = [FileOp.truncate stateFileName] := by
      simp [saveStateOps, writeTextOps]
    rw [htake] at h1
    have h2 : applyOps [(stateFileName, old)] [FileOp.truncate stateFileName]
        = setFile [(stateFileName, old)] stateFileName "" := by
      simp [applyOps, applyOp]
    rw [h2, lookupFile_setFile] at h1
    have h3 : lookupFile [(stateFileName, old)] stateFileName = some old := by
      simp only [lookupFile]
      rw [List.find?_cons_of_pos _ (by simp)]
    rw [h3] at h1
    rcases h1 with h1 | h1
    · exact hold (Option.some.inj h1).symm
    · exact encodeState_ne_empty r (Option.some.inj h1).symm

/-- Witness for `saveState_direct_write`: a concrete record and previous
contents exhibiting both the complete write and the unsafe crash
point. -/
theorem saveState_direct_write_witness :
    ¬ crashSafe (saveStateOps ⟨2, true, some 9⟩) stateFileName
        [(stateFileName, "prev")] (encodeState ⟨2, true, some 9⟩) :=
  (saveState_direct_write ⟨2, true, some 9⟩ [(stateFileName, "prev")]).2 "prev" (by decide)

/-! ## API-error hint classifier (`TelegramPoster._posting_tick`) -/

/-- Configuration hint for a wrong or missing channel. -/
def hintChatNotFound : String := "🔧 Бот не добавлен в канал или неверный channel_id"

/-- Permission hint for a bot removed from the channel. -/
def hintKicked : String := "🔧 Бот исключён из канала — добавьте его обратно как администратора"

/-- Permission hint for missing publish rights. -/
def hintForbidden : String := "🔧 Нет прав на публикацию — проверьте права бота в канале"

/-- Corrupt-file hint. -/
def hintCorruptFile : String := "🔧 Файл повреждён или неподдерживаемый формат"

/-- Size-limit hint. -/
def hintTooLarge : String := "🔧 Файл слишком большой для Telegram (лимит: фото 10 МБ, видео 50 МБ)"

/-- Rate-limit hint. -/
def hintFlood : String := "🔧 Превышен лимит запросов — бот временно заблокирован Telegram"

/-- Embeds the `api_hint` if-chain of `TelegramPoster._posting_tick`,
applied to the already lower-cased failure detail text. -/
def apiHint (errLower : String) : Option String :=
  if containsSub errLower "chat not found" then some hintChatNotFound
  else if containsSub errLower "bot was kicked" || containsSub errLower "bot is not a member" then
    some hintKicked
  else if containsSub errLower "forbidden" then some hintForbidden
  else if containsSub errLower "wrong file identifier" || containsSub errLower "invalid" then
    some hintCorruptFile
  else if containsSub errLower "too large" || containsSub errLower "file is too big" then
    some hintTooLarge
  else if containsSub errLower "flood" || containsSub errLower "too many requests" then
    some hintFlood
  else none

/-- First-match lookup in an ordered table of pattern lists and hints:
an entry fires when any of its patterns occurs in the text; the first
firing entry wins; no firing entry yields no hint. -/
def tableHint : List (List String × String) → String → Option String
  | [], _ => none
  | (pats, h) :: rest, s =>
    if pats.any (fun pat => containsSub s pat) then some h else tableHint rest s

/-- The hint table as the code implements it. -/
def hintTable : List (List String × String) :=
  [(["chat not found"], hintChatNotFound),
   (["bot was kicked", "bot is not a member"], hintKicked),
   (["forbidden"], hintForbidden),
   (["wrong file identifier", "invalid"], hintCorruptFile),
   (["too large", "file is too big"], hintTooLarge),
   (["flood", "too many requests"], hintFlood)]

/-- Modelled from the spec's words: the hint table exactly as the claim
states it, with bare "kicked" and "not a member" as the permission
patterns. -/
def claimHintTable : List (List String × String) :=
  [(["chat not found"], hintChatNotFound),
   (["kicked", "not a member"], hintKicked),
   (["forbidden"], hintForbidden),
   (["wrong file identifier", "invalid"], hintCorruptFile),
   (["too large", "file is too big"], hintTooLarge),
   (["flood", "too many requests"], hintFlood)]

/-- C5, counterexample.  On the error text "kicked" the claimed table
produces the permission hint, but the code's chain matches only the
longer patterns "bot was kicked" / "bot is not a member" and produces no
hint at all. -/
theorem apiHint_kicked_differs :
    apiHint "kicked" = none ∧ tableHint claimHintTable "kicked" = some hintKicked := by
  constructor
  · decide
  · decide

/-- C5, amended.  For `send_failed` outcomes the diagnostic hint is
chosen by case-insensitive substring matching of the lower-cased failure
detail text against the fixed ordered table where the permission entry's
patterns are "bot was kicked" and "bot is not a member" (not bare
"kicked" / "not a member"); the other entries are as claimed, the first
matching entry wins, and no match yields no hint. -/
theorem apiHint_eq_tableHint (s : String) : apiHint s = tableHint hintTable s := by
  simp only [apiHint, tableHint, hintTable, List.any_cons, List.any_nil, Bool.or_false]

/-! ## Collision-avoiding file names (`generate_unique_filename`) -/

/-- Value of a big-endian list of decimal digit characters. -/
def evalDigits (cs : List Char) : Nat :=
  cs.foldl (fun acc c => acc * 10 + (c.toNat - 48)) 0

/-- The digit printer is correct: evaluating the printed digits recovers
the number (for sufficient fuel). -/
theorem evalDigits_decimalReprAux :
    ∀ fuel n, n < fuel → evalDigits (decimalReprAux fuel n) = n := by
  intro fuel
  induction fuel with
  | zero => intro n hn; omega
  | succ fuel ih =>
    intro n hn
    by_cases h0 : n = 0
    · simp [h0, decimalReprAux, evalDigits]
    · simp only [decimalReprAux, if_neg h0]
      have hstep : evalDigits (decimalReprAux fuel (n / 10) ++ [Nat.digitChar (n % 10)])
          = evalDigits (decimalReprAux fuel (n / 10)) * 10
            + ((Nat.digitChar (n % 10)).toNat - 48) := by
        simp [evalDigits, List.foldl_append]
      rw [hstep]
      have hdiv : n / 10 < n := Nat.div_lt_self (by omega) (by omega)
      rw [ih (n / 10) (by omega)]
      have hchar : ∀ d, d < 10 → (Nat.digitChar d).toNat = 48 + d := by decide
      rw [hchar _ (Nat.mod_lt _ (by omega))]
      omega

/-- Evaluating the decimal representation of `n` recovers `n`. -/
theorem evalDigits_decimalRepr (n : Nat) : evalDigits (decimalRepr n).data = n := by
  by_cases h : n = 0
  · subst h; decide
  · simp only [decimalRepr, if_neg h]
    exact evalDigits_decimalReprAux (n + 1) n (Nat.lt_succ_self n)

/-- Python decimal formatting is injective. -/
theorem decimalRepr_inj {m n : Nat} (h : decimalRepr m = decimalRepr n) : m = n := by
  have h2 := congrArg (fun s => evalDigits s.data) h
  simpa [evalDigits_decimalRepr] using h2

/-- The candidate name the collision loop tries: stem, underscore,
counter, extension — Python's `f"{stem}_{c}{suffix}"`. -/
def candidateName (stem suffix : String) (c : Nat) : String :=
  stem ++ "_" ++ decimalRepr c ++ suffix

/-- Distinct counters give distinct candidate names. -/
theorem candidateName_inj (stem suffix : String) {c1 c2 : Nat}
    (h : candidateName stem suffix c1 = candidateName stem suffix c2) : c1 = c2 := by
  have hd := congrArg String.data h
  simp only [candidateName, String.data_append, List.append_assoc] at hd
  have h1 := List.append_cancel_left hd
  have h2 := List.append_cancel_left h1
  have h3 := List.append_cancel_right h2
  have h4 := congrArg evalDigits h3
  rwa [evalDigits_decimalRepr, evalDigits_decimalRepr] at h4

/-- Embeds the `while` loop of `generate_unique_filename`: starting at
counter `c`, return the first candidate name not present in the
directory.  The structural fuel `dir.length + 1` used below always
suffices (pigeonhole), so the fuel-exhausted base case is unreachable
there. -/
def findFree (dir : List String) (stem suffix : String) : Nat → Nat → String
  | 0, c => candidateName stem suffix c
  | fuel + 1, c =>
      if candidateName stem suffix c ∈ dir then findFree dir stem suffix fuel (c + 1)
      else candidateName stem suffix c

/-- Embeds `generate_unique_filename`: a free suggested name is returned
unchanged; otherwise a numeric suffix is appended before the extension
and incremented from 1 until a free name is found.  The directory is
modelled by the list of names of its existing files. -/
def generateUniqueFilename (dir : List String) (filename : String) : String :=
  if filename ∈ dir then
    findFree dir (splitExt filename).1 (splitExt filename).2 (dir.length + 1) 1
  else filename

/-- If the loop result is still an existing name, every candidate it
passed over — one per unit of fuel — is an existing name. -/
theorem findFree_mem_all (dir : List String) (stem suffix : String) :
    ∀ fuel c, findFree dir stem suffix fuel c ∈ dir →
      ∀ j, j ≤ fuel → candidateName stem suffix (c + j) ∈ dir := by
  intro fuel
  induction fuel with
  | zero =>
    intro c h j hj
    have hj0 : j = 0 := by omega
    subst hj0
    simpa [findFree] using h
  | succ fuel ih =>
    intro c h j hj
    by_cases hc : candidateName stem suffix c ∈ dir
    · have h' : findFree dir stem suffix fuel (c + 1) ∈ dir := by
        simpa [findFree, hc] using h
      cases j with
      | zero => simpa using hc
      | succ j' =>
        have hmem := ih (c + 1) h' j' (by omega)
        have harith : c + 1 + j' = c + (j' + 1) := by omega
        rwa [harith] at hmem
    · exfalso
      have hres : findFree dir stem suffix (fuel + 1) c = candidateName stem suffix c := by
        simp [findFree, hc]
      rw [hres] at h
      exact hc h

/-- Pigeonhole: `dir.length + 2` pairwise-distinct candidate names
cannot all belong to `dir`. -/
theorem cand_pigeon (dir : List String) (stem suffix : String) (c : Nat) :
    ¬ ∀ j, j ≤ dir.length + 1 → candidateName stem suffix (c + j) ∈ dir := by
  intro h
  set L := (List.range (dir.length + 2)).map (fun j => candidateName stem suffix (c + j))
    with hL
  have hnd : L.Nodup := by
    apply List.Nodup.map_on _ (List.nodup_range _)
    intro x _ y _ hxy
    have := candidateName_inj stem suffix hxy
    omega
  have hsub : L ⊆ dir := by
    intro a ha
    rw [hL, List.mem_map] at ha
    obtain ⟨j, hj, rfl⟩ := ha
    rw [List.mem_range] at hj
    exact h j (by omega)
  have hlen := (List.subperm_of_subset hnd hsub).length_le
  simp only [hL, List.length_map, List.length_range] at hlen
  omega

/-- With fuel `dir.length + 1` the collision loop always finds a name
that is not in the directory. -/
theorem findFree_not_mem (dir : List String) (stem suffix : String) (c : Nat) :
    findFree dir stem suffix (dir.length + 1) c ∉ dir :=
  fun h => cand_pigeon dir stem suffix c (findFree_mem_all dir stem suffix _ c h)

/-- The loop result is the candidate at some counter offset, and every
earlier candidate was an existing name (the counter is incremented one
at a time until free). -/
theorem findFree_shape (dir : List String) (stem suffix : String) :
    ∀ fuel c, ∃ j, findFree dir stem suffix fuel c = candidateName stem suffix (c + j)
      ∧ ∀ m, m < j → candidateName stem suffix (c + m) ∈ dir := by
  intro fuel
  induction fuel with
  | zero => exact fun c => ⟨0, by simp [findFree], fun m hm => absurd hm (by omega)⟩
  | succ fuel ih =>
    intro c
    by_cases hc : candidateName stem suffix c ∈ dir
    · obtain ⟨j, hj1, hj2⟩ := ih (c + 1)
      refine ⟨j + 1, ?_, ?_⟩
      · simp only [findFree, if_pos hc]
        rw [hj1]
        congr 1
        omega
      · intro m hm
        cases m with
        | zero => simpa using hc
        | succ m' =>
          have hmem := hj2 m' (by omega)
          have harith : c + 1 + m' = c + (m' + 1) := by omega
          rwa [harith] at hmem
    · exact ⟨0, by simp [findFree, hc], fun m hm => absurd hm (by omega)⟩

/-- C7: the collision-avoiding name generator never returns the name of
an existing file; a free suggested name is returned unchanged; for a
colliding suggested name the result is the suggested stem with a numeric
suffix at least 1 before the extension, is distinct from the suggestion,
and every smaller suffix was taken — so a second write of the same
suggested name never overwrites and gets a distinct stored name. -/
theorem generateUniqueFilename_spec (dir : List String) (filename : String) :
    generateUniqueFilename dir filename ∉ dir
    ∧ (filename ∉ dir → generateUniqueFilename dir filename = filename)
    ∧ (filename ∈ dir →
        generateUniqueFilename dir filename ≠ filename
        ∧ ∃ c, 1 ≤ c
            ∧ generateUniqueFilename dir filename
                = candidateName (splitExt filename).1 (splitExt filename).2 c
            ∧ ∀ k, 1 ≤ k → k < c →
                candidateName (splitExt filename).1 (splitExt filename).2 k ∈ dir) := by
  by_cases hmem : filename ∈ dir
  · have hres : generateUniqueFilename dir filename
        = findFree dir (splitExt filename).1 (splitExt filename).2 (dir.length + 1) 1 := by
      simp [generateUniqueFilename, hmem]
    have hfree := findFree_not_mem dir (splitExt filename).1 (splitExt filename).2 1
    refine ⟨by rw [hres]; exact hfree, fun h => absurd hmem h, fun _ => ⟨?_, ?_⟩⟩
    · intro he
      rw [hres] at he
      exact hfree (by rw [he]; exact hmem)
    · obtain ⟨j, hj1, hj2⟩ := findFree_shape dir (splitExt filename).1 (splitExt filename).2
        (dir.length + 1) 1
      refine ⟨1 + j, by omega, by rw [hres, hj1], ?_⟩
      intro k hk1 hk2
      have hk : k = 1 + (k - 1) := by omega
      rw [hk]
      exact hj2 (k - 1) (by omega)
  · have hres : generateUniqueFilename dir filename = filename := by
      simp [generateUniqueFilename, hmem]
    exact ⟨by rw [hres]; exact hmem, fun _ => hres, fun h => absurd h hmem⟩

/-- Witness for `generateUniqueFilename_spec`: with `img.jpg` and
`img_1.jpg` already present, saving `img.jpg` again produces a fresh
name; against a directory without the suggestion, the suggestion is kept
unchanged. -/
theorem generateUniqueFilename_spec_witness :
    generateUniqueFilename ["img.jpg", "img_1.jpg"] "img.jpg" ∉ ["img.jpg", "img_1.jpg"]
    ∧ generateUniqueFilename ["other.png"] "img.jpg" = "img.jpg" :=
  ⟨(generateUniqueFilename_spec ["img.jpg", "img_1.jpg"] "img.jpg").1,
   (generateUniqueFilename_spec ["other.png"] "img.jpg").2.1 (by decide)⟩

/-! ## Low-content monitor (`get_low_content_channels`,
`TelegramPoster._check_low_content`) -/

/-- Embeds `get_low_content_channels`: the channels (with their total
asset counts) whose count is strictly below the threshold.  `counts` is
the per-enabled-channel total of `get_content_stats`. -/
def getLowContentChannels (threshold : Nat) (counts : List (String × Nat)) :
    List (String × Nat) :=
  counts.filter (fun p => p.2 < threshold)

/-- Embeds one run of `TelegramPoster._check_low_content`: alert every
low channel not yet in the warned set, add it to the set, then drop from
the set every channel that is no longer low.  Returns the list of
channels alerted in this check and the new warned set. -/
def checkLowContent (threshold : Nat) (counts : List (String × Nat)) (warned : List String) :
    List String × List String :=
  let low := getLowContentChannels threshold counts
  let alerts := (low.filter (fun p => !(warned.contains p.1))).map Prod.fst
  let warned2 := (warned ++ alerts).filter (fun ch => low.any (fun p => p.1 == ch))
  (alerts, warned2)

/-- A sequence of low-content checks, one per round of channel counts,
threading the warned set; returns the per-round alert lists and the
final warned set. -/
def runLowChecks (threshold : Nat) :
    List (List (String × Nat)) → List String → List (List String) × List String
  | [], warned => ([], warned)
  | counts :: rest, warned =>
    let r1 := checkLowContent threshold counts warned
    let r2 := runLowChecks threshold rest r1.2
    (r1.1 :: r2.1, r2.2)

/-- Is channel `ch` below the threshold in this round's counts? -/
def belowFlag (threshold : Nat) (ch : String) (counts : List (String × Nat)) : Bool :=
  counts.any (fun p => p.1 == ch && decide (p.2 < threshold))

/-- Edge marks of a boolean signal: true exactly when the signal is true
now and was not true at the previous step (`prev` is the initial
state). -/
def edgeMarks : Bool → List Bool → List Bool
  | _, [] => []
  | prev, b :: rest => (b && !prev) :: edgeMarks b rest

/-- In a keyed association list with distinct keys, a predicate that
only holds on entries with key `ch` is satisfied at most once. -/
theorem countP_keyed (counts : List (String × Nat))
    (hnd : (counts.map Prod.fst).Nodup) (ch : String) (q : String × Nat → Bool)
    (hq : ∀ p, q p = true → p.1 = ch) :
    List.countP q counts = if counts.any q then 1 else 0 := by
  induction counts with
  | nil => simp
  | cons p rest ih =>
    simp only [List.map_cons, List.nodup_cons] at hnd
    obtain ⟨hp_notin, hnd_rest⟩ := hnd
    cases hqp : q p with
    | true =>
      have hkey : p.1 = ch := hq p hqp
      have hrest : List.countP q rest = 0 := by
        rw [List.countP_eq_zero]
        intro a ha hqa
        exact hp_notin (by rw [hkey, ← hq a hqa]; exact List.mem_map_of_mem Prod.fst ha)
      rw [List.countP_cons_of_pos _ _ hqp, hrest, if_pos (by simp [List.any_cons, hqp])]
    | false =>
      rw [List.countP_cons_of_neg _ _ (by simp [hqp]), ih hnd_rest]
      have hany : (p :: rest).any q = rest.any q := by simp [List.any_cons, hqp]
      rw [hany]

/-- Alert count of one check for a fixed channel: exactly one alert when
the channel is below threshold and not yet warned, none otherwise
(requires distinct channel keys, as produced by the stats dictionary). -/
theorem alerts_count (threshold : Nat) (counts : List (String × Nat)) (w : List String)
    (ch : String) (hnd : (counts.map Prod.fst).Nodup) :
    ((checkLowContent threshold counts w).1).count ch
      = if belowFlag threshold ch counts && !(w.contains ch) then 1 else 0 := by
  have hq : ∀ p : String × Nat,
      ((p.1 == ch && !(w.contains p.1)) && decide (p.2 < threshold)) = true → p.1 = ch := by
    intro p hp
    simp only [Bool.and_eq_true, beq_iff_eq] at hp
    exact hp.1.1
  have hcount : ((checkLowContent threshold counts w).1).count ch
      = List.countP (fun p => (p.1 == ch && !(w.contains p.1)) && decide (p.2 < threshold))
          counts := by
    simp only [checkLowContent, getLowContentChannels]
    rw [List.count_eq_countP, List.countP_map, List.countP_filter, List.countP_filter]
    apply List.countP_congr
    intro p _
    simp [Function.comp]
  have hbool : counts.any (fun p => (p.1 == ch && !(w.contains p.1)) && decide (p.2 < threshold))
      = (belowFlag threshold ch counts && !(w.contains ch)) := by
    cases hw : w.contains ch with
    | true =>
      simp only [Bool.not_true, Bool.and_false]
      rw [List.any_eq_false]
      intro p _
      by_cases hpc : p.1 = ch
      · simp only [Bool.not_eq_true]
        rw [hpc, hw]
        simp
      · simp [beq_eq_false_iff_ne.mpr hpc]
    | false =>
      simp only [Bool.not_false, Bool.and_true, belowFlag]
      rw [Bool.eq_iff_iff]
      simp only [List.any_eq_true, Bool.and_eq_true, beq_iff_eq, decide_eq_true_eq]
      constructor
      · rintro ⟨p, hp, ⟨h1, _⟩, h3⟩
        exact ⟨p, hp, h1, h3⟩
      · rintro ⟨p, hp, h1, h3⟩
        refine ⟨p, hp, ⟨h1, ?_⟩, h3⟩
        rw [h1, hw]
        rfl
  rw [hcount, countP_keyed counts hnd ch _ hq, hbool]

/-- Warned-set membership after one check tracks exactly whether the
channel is currently below threshold: a recovered channel is dropped
from the set, a low channel is in the set (old or newly alerted). -/
theorem warned_after (threshold : Nat) (counts : List (String × Nat)) (w : List String)
    (ch : String) :
    ((checkLowContent threshold counts w).2).contains ch = belowFlag threshold ch counts := by
  rw [Bool.eq_iff_iff, List.elem_iff]
  constructor
  · intro h
    simp only [checkLowContent] at h
    rw [List.mem_filter] at h
    obtain ⟨-, hany⟩ := h
    rw [List.any_eq_true] at hany
    obtain ⟨p, hp, hpe⟩ := hany
    rw [beq_iff_eq] at hpe
    rw [getLowContentChannels, List.mem_filter] at hp
    obtain ⟨hpc, hplt⟩ := hp
    rw [belowFlag, List.any_eq_true]
    refine ⟨p, hpc, ?_⟩
    rw [Bool.and_eq_true]
    exact ⟨beq_iff_eq.mpr hpe, hplt⟩
  · intro h
    rw [belowFlag, List.any_eq_true] at h
    obtain ⟨p, hp, hcond⟩ := h
    simp only [Bool.and_eq_true, beq_iff_eq, decide_eq_true_eq] at hcond
    obtain ⟨hpe, hplt⟩ := hcond
    have hlow : p ∈ getLowContentChannels threshold counts := by
      rw [getLowContentChannels, List.mem_filter]
      exact ⟨hp, by simpa using hplt⟩
    simp only [checkLowContent]
    rw [List.mem_filter]
    constructor
    · rw [List.mem_append]
      cases hw : w.contains ch with
      | true => exact Or.inl (List.elem_iff.mp hw)
      | false =>
        refine Or.inr ?_
        rw [List.mem_map]
        refine ⟨p, ?_, hpe⟩
        rw [List.mem_filter]
        exact ⟨hlow, by rw [hpe, hw]; rfl⟩
    · rw [List.any_eq_true]
      exact ⟨p, hlow, by simp [hpe]⟩

/-- C6: the low-content monitor is edge-triggered.  Over any sequence of
check rounds, the number of alerts sent for a channel in each round is 1
exactly when the channel is below threshold in that round and was not
below in the previous round (or initially unwarned), and 0 otherwise —
in particular no re-alerts while it stays below; and the warned set
after the run contains the channel exactly when the last round left it
below threshold, so recovery removes it and a new drop re-alerts once. -/
theorem lowContent_edge_triggered (threshold : Nat) (ch : String) :
    ∀ (rounds : List (List (String × Nat))) (w : List String),
      (∀ r ∈ rounds, (r.map Prod.fst).Nodup) →
      ((runLowChecks threshold rounds w).1).map (fun al => al.count ch)
          = (edgeMarks (w.contains ch) (rounds.map (belowFlag threshold ch))).map
              (fun b => if b then 1 else 0)
      ∧ ((runLowChecks threshold rounds w).2).contains ch
          = (rounds.map (belowFlag threshold ch)).getLastD (w.contains ch) := by
  intro rounds
  induction rounds with
  | nil => exact fun w _ => ⟨rfl, rfl⟩
  | cons counts rest ih =>
    intro w hnd
    have h1 := alerts_count threshold counts w ch (hnd counts (by simp))
    have h2 := warned_after threshold counts w ch
    have ihr := ih ((checkLowContent threshold counts w).2) (fun r hr => hnd r (by simp [hr]))
    constructor
    · simp only [runLowChecks, List.map_cons, edgeMarks]
      rw [h1, ihr.1, h2]
    · simp only [runLowChecks, List.map_cons, List.getLastD_cons]
      rw [ihr.2, h2]

/-- Witness for `lowContent_edge_triggered`: the spec's scenario with
threshold 10 and counts 12, 8, 8, 8, 11, 9 — one alert at the 12 to 8
drop, none while staying at 8, none on recovery to 11, one new alert at
the drop to 9. -/
theorem lowContent_edge_triggered_witness :
    ((runLowChecks 10 [[("x", 12)], [("x", 8)], [("x", 8)], [("x", 8)], [("x", 11)], [("x", 9)]]
        []).1).map (fun al => al.count "x")
      = (edgeMarks (([] : List String).contains "x")
          ([[("x", 12)], [("x", 8)], [("x", 8)], [("x", 8)], [("x", 11)], [("x", 9)]].map
            (belowFlag 10 "x"))).map (fun b => if b then 1 else 0)
    ∧ ((runLowChecks 10 [[("x", 12)], [("x", 8)], [("x", 8)], [("x", 8)], [("x", 11)], [("x", 9)]]
        []).1).map (fun al => al.count "x") = [0, 1, 0, 0, 0, 1] :=
  ⟨(lowContent_edge_triggered 10 "x"
      [[("x", 12)], [("x", 8)], [("x", 8)], [("x", 8)], [("x", 11)], [("x", 9)]] []
      (by decide)).1,
   by decide⟩

/-! ## Media aggregator (`ContentUploader.handle_album_message`,
`ContentUploader._process_album`)

One pending batch is modelled by its item buffer and the deadline of the
currently scheduled flush timer.  Arrivals are `(time, item)` pairs for
a single media-group key; `handle_album_message` appends the item and
reschedules the flush timer 2 seconds ahead, and the timer callback
`_process_album` flushes the whole buffer.  The discrete-event
simulation below fires a pending timer whose deadline has passed before
processing the next arrival, and fires the last pending timer at the
end. -/

/-- The quiet period of the album buffer (`run_once(..., when=2)`). -/
def albumQuietPeriod : Int := 2

/-- A pending batch: buffered items and the scheduled flush deadline. -/
structure AlbumState where
  buffer : List String
  deadline : Option Int
  deriving DecidableEq

/-- Embeds one arrival handled by `handle_album_message` at time `t`,
preceded by the timer callback if its deadline already passed: the fired
flush (if any) is returned, the item is appended to the (possibly
freshly emptied) buffer and the flush timer is reset to `t + 2`. -/
def ingestAlbum (st : AlbumState) (t : Int) (item : String) :
    Option (List String) × AlbumState :=
  match st.deadline with
  | some d =>
      if d ≤ t then (some st.buffer, ⟨[item], some (t + albumQuietPeriod)⟩)
      else (none, ⟨st.buffer ++ [item], some (t + albumQuietPeriod)⟩)
  | none => (none, ⟨[item], some (t + albumQuietPeriod)⟩)

/-- Process a list of arrivals, collecting the flushes fired on the
way. -/
def runAlbum : AlbumState → List (Int × String) → List (List String) × AlbumState
  | st, [] => ([], st)
  | st, (t, x) :: rest =>
    let r1 := ingestAlbum st t x
    let r2 := runAlbum r1.2 rest
    (r1.1.toList ++ r2.1, r2.2)

/-- All flushes produced for one batch key by a finite arrival sequence,
including the final flush when the last pending timer fires
(`_process_album` does nothing on an empty buffer). -/
def albumFlushes (arrivals : List (Int × String)) : List (List String) :=
  let r := runAlbum ⟨[], none⟩ arrivals
  r.1 ++ (if r.2.buffer.isEmpty then [] else [r.2.buffer])

/-- Number of notifications sent for the arrival sequence:
`_process_album` replies exactly once per non-degenerate flush. -/
def albumNotifications (arrivals : List (Int × String)) : Nat :=
  (albumFlushes arrivals).length

/-- Every inter-arrival gap is smaller than the quiet period. -/
def gapsLt : List (Int × String) → Bool
  | [] => true
  | [_] => true
  | a :: b :: rest => decide (b.1 < a.1 + albumQuietPeriod) && gapsLt (b :: rest)

/-- Arrival time of the last item (0 for no arrivals). -/
def lastTime : List (Int × String) → Int
  | [] => 0
  | [(t, _)] => t
  | _ :: rest => lastTime rest

/-- One-step unfolding of the simulation. -/
theorem runAlbum_cons (st : AlbumState) (t : Int) (x : String) (rest : List (Int × String)) :
    runAlbum st ((t, x) :: rest)
      = ((ingestAlbum st t x).1.toList ++ (runAlbum (ingestAlbum st t x).2 rest).1,
         (runAlbum (ingestAlbum st t x).2 rest).2) := rfl

/-- While gaps stay below the quiet period and the pending deadline is
ahead of the next arrival, no timer fires: the whole run only extends
the buffer and pushes the deadline past the last arrival. -/
theorem runAlbum_quiet (l : List (Int × String)) :
    ∀ (buf : List String) (d : Int), l ≠ [] → gapsLt l = true →
      (l.headD (0, "")).1 < d →
      runAlbum ⟨buf, some d⟩ l
        = ([], ⟨buf ++ l.map Prod.snd, some (lastTime l + albumQuietPeriod)⟩) := by
  induction l with
  | nil => exact fun buf d hne _ _ => absurd rfl hne
  | cons hd rest ih =>
    obtain ⟨t, x⟩ := hd
    intro buf d _ hg hh
    rw [List.headD_cons] at hh
    have hstep : ingestAlbum ⟨buf, some d⟩ t x
        = (none, ⟨buf ++ [x], some (t + albumQuietPeriod)⟩) := by
      simp only [ingestAlbum]
      rw [if_neg (by omega)]
    cases rest with
    | nil => simp [runAlbum, hstep, lastTime]
    | cons p2 rest2 =>
      obtain ⟨t2, x2⟩ := p2
      simp only [gapsLt, Bool.and_eq_true, decide_eq_true_eq] at hg
      obtain ⟨hgap, hg2⟩ := hg
      have hih := ih (buf ++ [x]) (t + albumQuietPeriod) (by simp) hg2
        (by rw [List.headD_cons]; exact hgap)
      rw [runAlbum_cons, hstep]
      simp only [Option.toList, List.nil_append]
      rw [hih]
      simp [List.append_assoc, lastTime]

/-- Running a gap-bounded arrival sequence from an empty aggregator
fires no timer and buffers all items in order. -/
theorem runAlbum_fresh (l : List (Int × String)) (hne : l ≠ []) (hg : gapsLt l = true) :
    runAlbum ⟨[], none⟩ l
      = ([], ⟨l.map Prod.snd, some (lastTime l + albumQuietPeriod)⟩) := by
  cases l with
  | nil => exact absurd rfl hne
  | cons hd rest =>
    obtain ⟨t, x⟩ := hd
    have hstep : ingestAlbum ⟨[], none⟩ t x = (none, ⟨[x], some (t + albumQuietPeriod)⟩) := by
      simp [ingestAlbum]
    cases rest with
    | nil => simp [runAlbum, hstep, lastTime]
    | cons p2 rest2 =>
      obtain ⟨t2, x2⟩ := p2
      simp only [gapsLt, Bool.and_eq_true, decide_eq_true_eq] at hg
      obtain ⟨hgap, hg2⟩ := hg
      have hq := runAlbum_quiet ((t2, x2) :: rest2) [x] (t + albumQuietPeriod) (by simp) hg2
        (by rw [List.headD_cons]; exact hgap)
      rw [runAlbum_cons, hstep]
      simp only [Option.toList, List.nil_append]
      rw [hq]
      simp [lastTime]

/-- Splitting an arrival sequence splits the simulation. -/
theorem runAlbum_append (l1 l2 : List (Int × String)) : ∀ st : AlbumState,
    runAlbum st (l1 ++ l2)
      = ((runAlbum st l1).1 ++ (runAlbum (runAlbum st l1).2 l2).1,
         (runAlbum (runAlbum st l1).2 l2).2) := by
  induction l1 with
  | nil => intro st; simp [runAlbum]
  | cons hd rest ih =>
    obtain ⟨t, x⟩ := hd
    intro st
    simp only [List.cons_append, runAlbum_cons]
    rw [ih]
    simp [List.append_assoc]

/-- C4: debounce of the album aggregator.  If all inter-arrival gaps are
below the 2-second quiet period, exactly one flush occurs, containing
all items in arrival order, with exactly one notification; if the last
item instead arrives once the quiet period since the previous item has
elapsed, exactly two flushes occur — the earlier items as one batch and
the last item alone. -/
theorem album_debounce :
    (∀ l : List (Int × String), l ≠ [] → gapsLt l = true →
        albumFlushes l = [l.map Prod.snd] ∧ albumNotifications l = 1)
    ∧ (∀ (l : List (Int × String)) (tN : Int) (xN : String), l ≠ [] → gapsLt l = true →
        lastTime l + albumQuietPeriod ≤ tN →
        albumFlushes (l ++ [(tN, xN)]) = [l.map Prod.snd, [xN]]
        ∧ albumNotifications (l ++ [(tN, xN)]) = 2) := by
  constructor
  · intro l hne hg
    have hf := runAlbum_fresh l hne hg
    have hbuf : (l.map Prod.snd).isEmpty = false := by
      cases l with
      | nil => exact absurd rfl hne
      | cons hd rest => rfl
    constructor
    · simp [albumFlushes, hf, hbuf]
    · simp [albumNotifications, albumFlushes, hf, hbuf]
  · intro l tN xN hne hg hlate
    have hf := runAlbum_fresh l hne hg
    have happ := runAlbum_append l [(tN, xN)] ⟨[], none⟩
    rw [hf] at happ
    have hstep : ingestAlbum ⟨l.map Prod.snd, some (lastTime l + albumQuietPeriod)⟩ tN xN
        = (some (l.map Prod.snd), ⟨[xN], some (tN + albumQuietPeriod)⟩) := by
      simp only [ingestAlbum]
      rw [if_pos hlate]
    have hrun2 : runAlbum ⟨l.map Prod.snd, some (lastTime l + albumQuietPeriod)⟩ [(tN, xN)]
        = ([l.map Prod.snd], ⟨[xN], some (tN + albumQuietPeriod)⟩) := by
      simp [runAlbum, hstep]
    rw [hrun2] at happ
    constructor
    · simp [albumFlushes, happ]
    · simp [albumNotifications, albumFlushes, happ]

/-- Witness for `album_debounce`: three items at times 0, 1, 2 flush as
one batch in order; with the third item at time 4 instead (two seconds
after the previous item), the first two flush together and the last item
flushes alone. -/
theorem album_debounce_witness :
    albumFlushes [(0, "a"), (1, "b"), (2, "c")] = [["a", "b", "c"]]
    ∧ albumFlushes [(0, "a"), (1, "b"), (4, "d")] = [["a", "b"], ["d"]] :=
  ⟨by rw [(album_debounce.1 [(0, "a"), (1, "b"), (2, "c")] (by decide) (by decide)).1]; rfl,
   by
    have h := (album_debounce.2 [(0, "a"), (1, "b")] 4 "d" (by decide) (by decide)
      (by decide)).1
    simpa using h⟩

/-! ## Asset selection and posting (`TelegramPoster.get_random_image`,
`TelegramPoster.post_and_delete`, `TelegramPoster._posting_tick`) -/

/-- The supported media formats (`SUPPORTED_FORMATS`, the default of
`get_supported_formats`). -/
def supportedFormats : List String :=
  [".jpg", ".jpeg", ".png", ".gif", ".webp", ".mp4", ".webm", ".mov"]

/-- Assets of one channel in the content tree (empty when the channel
has no folder). -/
def lookupContent (content : List (String × List Image)) (key : String) : List Image :=
  match content.find? (fun p => p.1 == key) with
  | some p => p.2
  | none => []

/-- Embeds `TelegramPoster.get_random_image`: all assets of the channel
whose lower-cased extension is a supported format, with `random.choice`
modelled by the oracle index `pick` reduced modulo the number of
candidates; `none` when no candidate exists. -/
def getRandomImage (content : List (String × List Image)) (channelKey : String)
    (pick : Nat) : Option Image :=
  let images := (lookupContent content channelKey).filter
    (fun img => supportedFormats.contains (toLowerStr (splitExt img.name).2))
  if h : images.length = 0 then none
  else some (images.get ⟨pick % images.length, Nat.mod_lt _ (Nat.pos_of_ne_zero h)⟩)

/-- Delete one asset of a channel from the content tree (the `unlink`
after a successful send). -/
def removeAsset (content : List (String × List Image)) (key : String) (img : Image) :
    List (String × List Image) :=
  content.map (fun p => if p.1 == key then (p.1, p.2.erase img) else p)

/-- Result dictionary of `post_and_delete`: `ok` or a failure with
reason code and detail text. -/
inductive PostResult where
  | ok : PostResult
  | failed (reason details : String) : PostResult
  deriving DecidableEq

/-- Embeds `TelegramPoster.post_and_delete`.  The transport, the file
system race and the deletion outcome are oracles: `sendOk` is the result
of `send_file`, `fileOnDisk` is the pre-send existence check, and
`unlinkOk` tells whether the post-send `unlink` succeeds (its failure is
only logged).  On success the asset is deleted (when `unlinkOk`), the
last post time is recorded and the state is persisted; on failure the
state is untouched. -/
def postAndDelete (sendOk unlinkOk fileOnDisk : Bool) (apiErr : String) (pick : Nat)
    (now : Int) (st : PostState) (channelKey : String) : PostResult × PostState :=
  match getRandomImage st.content channelKey pick with
  | none =>
      (PostResult.failed "no_content" "Нет файлов поддерживаемых форматов в папках контента", st)
  | some img =>
      if !fileOnDisk then
        (PostResult.failed "file_missing" ("Файл исчез: " ++ img.name), st)
      else if sendOk then
        let st1 :=
          if unlinkOk then { st with content := removeAsset st.content channelKey img } else st
        let st2 := { st1 with lastPostTime := some now }
        (PostResult.ok, saveState st2)
      else
        (PostResult.failed "send_failed"
          ("Файл: " ++ img.name ++ ", категория: " ++ img.category
            ++ "\nAPI ошибка: " ++ apiErr), st)

/-- What one `_posting_tick` reports: the outcome of the post attempt
(none when the tick was a no-op) and the diagnostic hint attached to a
`send_failed` outcome. -/
structure TickReport where
  outcome : Option PostResult
  hint : Option String
  deriving DecidableEq

/-- Embeds `TelegramPoster._posting_tick`: a no-op outside the active
hour window; otherwise the next channel is taken from the rotation (the
index advances and is persisted), `post_and_delete` runs against it, and
on a `send_failed` outcome the failure detail text is lower-cased and
classified into a hint. -/
def postingTick (firstHour lastHour nowHour : Nat) (sendOk unlinkOk fileOnDisk : Bool)
    (apiErr : String) (pick : Nat) (now : Int) (st : PostState) : TickReport × PostState :=
  if firstHour ≤ nowHour ∧ nowHour < lastHour then
    match getNextChannel st with
    | (none, st1) => (⟨none, none⟩, st1)
    | (some ch, st1) =>
      let r := postAndDelete sendOk unlinkOk fileOnDisk apiErr pick now st1 ch
      let hint :=
        match r.1 with
        | PostResult.failed reason details =>
            if reason == "send_failed" then apiHint (toLowerStr details) else none
        | PostResult.ok => none
      (⟨some r.1, hint⟩, r.2)
  else (⟨none, none⟩, st)

/-- With a valid index, `get_next_channel` returns the channel at the
current index and persists the cyclically advanced index. -/
theorem getNextChannel_valid (st : PostState)
    (hi : st.currentChannelIndex < st.channelsList.length) :
    getNextChannel st
      = (some (st.channelsList.get ⟨st.currentChannelIndex, hi⟩),
         saveState { st with
           currentChannelIndex := (st.currentChannelIndex + 1) % st.channelsList.length }) := by
  have hpos : 0 < st.channelsList.length := by omega
  have hne : st.channelsList.isEmpty = false := by
    simp [List.isEmpty_iff]
    exact List.ne_nil_of_length_pos hpos
  simp only [getNextChannel, hne, Bool.false_eq_true, if_false,
    List.getElem?_eq_getElem hi, List.get_eq_getElem]

/-- C3: a tick whose selected channel has no assets of a supported
format reports the `no_content` failure with no hint, deletes nothing,
leaves the last publish time unchanged, and keeps the already-advanced
rotation index — no rollback. -/
theorem tick_no_content (firstHour lastHour nowHour : Nat) (sendOk unlinkOk fileOnDisk : Bool)
    (apiErr : String) (pick : Nat) (now : Int) (st : PostState)
    (hwin1 : firstHour ≤ nowHour) (hwin2 : nowHour < lastHour)
    (hi : st.currentChannelIndex < st.channelsList.length)
    (hempty : getRandomImage st.content
        (st.channelsList.get ⟨st.currentChannelIndex, hi⟩) pick = none) :
    ((postingTick firstHour lastHour nowHour sendOk unlinkOk fileOnDisk apiErr pick now st).1).outcome
        = some (PostResult.failed "no_content"
            "Нет файлов поддерживаемых форматов в папках контента")
    ∧ ((postingTick firstHour lastHour nowHour sendOk unlinkOk fileOnDisk apiErr pick now st).1).hint
        = none
    ∧ ((postingTick firstHour lastHour nowHour sendOk unlinkOk fileOnDisk apiErr pick now st).2).content
        = st.content
    ∧ ((postingTick firstHour lastHour nowHour sendOk unlinkOk fileOnDisk apiErr pick now st).2).lastPostTime
        = st.lastPostTime
    ∧ ((postingTick firstHour lastHour nowHour sendOk unlinkOk fileOnDisk apiErr pick now st).2).currentChannelIndex
        = (st.currentChannelIndex + 1) % st.channelsList.length := by
  have hpd : postAndDelete sendOk unlinkOk fileOnDisk apiErr pick now
      (saveState { st with
        currentChannelIndex := (st.currentChannelIndex + 1) % st.channelsList.length })
      (st.channelsList.get ⟨st.currentChannelIndex, hi⟩)
      = (PostResult.failed "no_content"
            "Нет файлов поддерживаемых форматов в папках контента",
         saveState { st with
           currentChannelIndex := (st.currentChannelIndex + 1) % st.channelsList.length }) := by
    simp only [postAndDelete, saveState]
    rw [show ({ st with
        currentChannelIndex := (st.currentChannelIndex + 1) % st.channelsList.length,
        stateFile := some ⟨(st.currentChannelIndex + 1) % st.channelsList.length,
          st.isPosting, st.lastPostTime⟩ } : PostState).content = st.content from rfl]
    rw [hempty]
  have hmain : postingTick firstHour lastHour nowHour sendOk unlinkOk fileOnDisk apiErr pick now st
      = (⟨some (PostResult.failed "no_content"
            "Нет файлов поддерживаемых форматов в папках контента"), none⟩,
         saveState { st with
           currentChannelIndex := (st.currentChannelIndex + 1) % st.channelsList.length }) := by
    simp only [postingTick, if_pos (And.intro hwin1 hwin2), getNextChannel_valid st hi, hpd]
    rw [show (("no_content" : String) == "send_failed") = false from by decide]
    simp
  rw [hmain]
  exact ⟨rfl, rfl, rfl, rfl, rfl⟩

/-- Witness for `tick_no_content`: the end-to-end scenario with channels
A and B where A holds one asset and B none.  Tick 1 selects A, posts,
deletes the asset and leaves index 1; tick 2 selects B, reports
`no_content`, deletes nothing, and the index still advances to 0. -/
theorem tick_no_content_witness :
    ((postingTick 0 24 12 true true true "" 0 5
        ⟨["A", "B"], 0, true, none, [("A", [⟨"a1.jpg", "cats"⟩]), ("B", [])], none⟩).1).outcome
      = some PostResult.ok
    ∧ (postingTick 0 24 12 true true true "" 0 5
        ⟨["A", "B"], 0, true, none, [("A", [⟨"a1.jpg", "cats"⟩]), ("B", [])], none⟩).2
      = ⟨["A", "B"], 1, true, some 5, [("A", []), ("B", [])],
          some ⟨1, true, some 5⟩⟩
    ∧ ((postingTick 0 24 12 true true true "" 0 7
        ⟨["A", "B"], 1, true, some 5, [("A", []), ("B", [])], some ⟨1, true, some 5⟩⟩).1).outcome
      = some (PostResult.failed "no_content"
          "Нет файлов поддерживаемых форматов в папках контента")
    ∧ ((postingTick 0 24 12 true true true "" 0 7
        ⟨["A", "B"], 1, true, some 5, [("A", []), ("B", [])], some ⟨1, true, some 5⟩⟩).2).content
      = [("A", []), ("B", [])]
    ∧ ((postingTick 0 24 12 true true true "" 0 7
        ⟨["A", "B"], 1, true, some 5, [("A", []), ("B", [])], some ⟨1, true, some 5⟩⟩).2).lastPostTime
      = some 5
    ∧ ((postingTick 0 24 12 true true true "" 0 7
        ⟨["A", "B"], 1, true, some 5, [("A", []), ("B", [])], some ⟨1, true, some 5⟩⟩).2).currentChannelIndex
      = 0 :=
  ⟨by decide, by decide,
   (tick_no_content 0 24 12 true true true "" 0 7
      ⟨["A", "B"], 1, true, some 5, [("A", []), ("B", [])], some ⟨1, true, some 5⟩⟩
      (by decide) (by decide) (by decide) (by decide)).1,
   (tick_no_content 0 24 12 true true true "" 0 7
      ⟨["A", "B"], 1, true, some 5, [("A", []), ("B", [])], some ⟨1, true, some 5⟩⟩
      (by decide) (by decide) (by decide) (by decide)).2.2.1,
   (tick_no_content 0 24 12 true true true "" 0 7
      ⟨["A", "B"], 1, true, some 5, [("A", []), ("B", [])], some ⟨1, true, some 5⟩⟩
      (by decide) (by decide) (by decide) (by decide)).2.2.2.1,
   by decide⟩

/-- C10: when the send succeeds but the deletion of the published asset
fails, `post_and_delete` still returns the success outcome, still
records the last publish time and persists the rotation state, and the
asset survives in the content tree — the deletion failure is only
logged, never surfaced in the outcome. -/
theorem post_delete_unlink_failure (apiErr : String) (pick : Nat) (now : Int)
    (st : PostState) (ch : String) (img : Image)
    (himg : getRandomImage st.content ch pick = some img) :
    (postAndDelete true false true apiErr pick now st ch).1 = PostResult.ok
    ∧ ((postAndDelete true false true apiErr pick now st ch).2).content = st.content
    ∧ ((postAndDelete true false true apiErr pick now st ch).2).lastPostTime = some now
    ∧ ((postAndDelete true false true apiErr pick now st ch).2).stateFile
        = some ⟨st.currentChannelIndex, st.isPosting, some now⟩ := by
  simp only [postAndDelete, himg]
  simp [saveState]

/-- Witness for `post_delete_unlink_failure`: a concrete state where the
single asset of channel A is posted, the deletion fails, and the asset
is still present afterwards. -/
theorem post_delete_unlink_failure_witness :
    (postAndDelete true false true "" 0 11
        ⟨["A"], 0, true, none, [("A", [⟨"a.jpg", "cats"⟩])], none⟩ "A").1 = PostResult.ok
    ∧ ((postAndDelete true false true "" 0 11
        ⟨["A"], 0, true, none, [("A", [⟨"a.jpg", "cats"⟩])], none⟩ "A").2).content
      = [("A", [⟨"a.jpg", "cats"⟩])] :=
  ⟨(post_delete_unlink_failure "" 0 11
      ⟨["A"], 0, true, none, [("A", [⟨"a.jpg", "cats"⟩])], none⟩ "A" ⟨"a.jpg", "cats"⟩
      (by decide)).1,
   (post_delete_unlink_failure "" 0 11
      ⟨["A"], 0, true, none, [("A", [⟨"a.jpg", "cats"⟩])], none⟩ "A" ⟨"a.jpg", "cats"⟩
      (by decide)).2.1⟩

/-! ## Round-robin rotation over many ticks (`get_next_channel`) -/

/-- `K` consecutive calls of `get_next_channel` with no reconfiguration
in between: the returned channels in order, and the final state. -/
def runRotation : PostState → Nat → List (Option String) × PostState
  | st, 0 => ([], st)
  | st, k + 1 =>
    let r1 := getNextChannel st
    let r2 := runRotation r1.2 k
    (r1.1 :: r2.1, r2.2)

/-- One-step unfolding of `runRotation`. -/
theorem runRotation_succ (st : PostState) (k : Nat) :
    runRotation st (k + 1)
      = ((getNextChannel st).1 :: (runRotation (getNextChannel st).2 k).1,
         (runRotation (getNextChannel st).2 k).2) := rfl

/-- The selection sequence: the `j`-th call returns the channel at
cyclic position `index + j` of the channel list. -/
theorem runRotation_outputs (K : Nat) :
    ∀ (chs : List String) (i : Nat) (b : Bool) (lp : Option Int)
      (ct : List (String × List Image)) (sf : Option SavedRecord), i < chs.length →
      (runRotation ⟨chs, i, b, lp, ct, sf⟩ K).1
        = (List.range K).map (fun j => chs[(i + j) % chs.length]?) := by
  induction K with
  | zero => intro chs i b lp ct sf _; rfl
  | succ K ih =>
    intro chs i b lp ct sf hi
    have hpos : 0 < chs.length := by omega
    rw [runRotation_succ, getNextChannel_valid ⟨chs, i, b, lp, ct, sf⟩ hi]
    simp only [saveState]
    have hih := ih chs ((i + 1) % chs.length) b lp ct
      (some ⟨(i + 1) % chs.length, b, lp⟩) (Nat.mod_lt _ hpos)
    rw [hih]
    rw [List.range_succ_eq_map, List.map_cons, List.map_map]
    have hhead : chs[(i + 0) % chs.length]? = some (chs.get ⟨i, hi⟩) := by
      rw [Nat.add_zero, Nat.mod_eq_of_lt hi, List.getElem?_eq_getElem hi,
        List.get_eq_getElem]
    rw [hhead]
    have htail : ((fun j => chs[(i + j) % chs.length]?) ∘ Nat.succ)
        = (fun j => chs[((i + 1) % chs.length + j) % chs.length]?) := by
      funext j
      simp only [Function.comp, Nat.succ_eq_add_one]
      have hmod : ((i + 1) % chs.length + j) % chs.length = (i + (j + 1)) % chs.length := by
        rw [Nat.mod_add_mod]
        congr 1
        omega
      rw [hmod]
    rw [htail]

/-- In one full cycle of length `N`, each position is hit exactly
once. -/
theorem countP_range_cycle (N i p : Nat) (hi : i < N) (hp : p < N) :
    List.countP (fun j => decide ((i + j) % N = p)) (List.range N) = 1 := by
  have hN : 0 < N := by omega
  have hmap : List.countP (fun j => decide ((i + j) % N = p)) (List.range N)
      = List.count p ((List.range N).map (fun j => (i + j) % N)) := by
    rw [List.count_eq_countP, List.countP_map]
    apply List.countP_congr
    intro j _
    simp [Function.comp]
  rw [hmap]
  apply List.count_eq_one_of_mem
  · apply List.Nodup.map_on _ (List.nodup_range N)
    intro x hx y hy hxy
    rw [List.mem_range] at hx hy
    have hmodeq : x % N = y % N := Nat.ModEq.add_left_cancel' i hxy
    rwa [Nat.mod_eq_of_lt hx, Nat.mod_eq_of_lt hy] at hmodeq
  · rw [List.mem_map]
    refine ⟨(N + p - i) % N, by rw [List.mem_range]; exact Nat.mod_lt _ hN, ?_⟩
    have h1 : (i + (N + p - i) % N) % N = (i + (N + p - i)) % N := by
      rw [Nat.add_comm i ((N + p - i) % N), Nat.mod_add_mod, Nat.add_comm]
    rw [h1, show i + (N + p - i) = N + p from by omega, Nat.add_mod_left,
      Nat.mod_eq_of_lt hp]

/-- Splitting a range of `q` full cycles plus a partial cycle. -/
theorem countP_range_chunks (N i p : Nat) :
    ∀ q s, List.countP (fun j => decide ((i + j) % N = p)) (List.range (N * q + s))
      = q * List.countP (fun j => decide ((i + j) % N = p)) (List.range N)
        + List.countP (fun j => decide ((i + j) % N = p)) (List.range s) := by
  intro q
  induction q with
  | zero => intro s; simp
  | succ q ih =>
    intro s
    rw [show N * (q + 1) + s = N + (N * q + s) from by ring, List.range_add,
      List.countP_append, List.countP_map]
    have hshift : ((fun j => decide ((i + j) % N = p)) ∘ (fun x => N + x))
        = (fun j => decide ((i + j) % N = p)) := by
      funext j
      simp only [Function.comp]
      rw [show i + (N + j) = (i + j) + N from by omega, Nat.add_mod_right]
    rw [hshift, ih s]
    ring

/-- C1: round-robin fairness of `get_next_channel`.  With a valid
persisted index and `N` distinct enabled channels, `K` consecutive calls
with no reconfiguration return exactly the channels at cyclic positions
`index, index+1, ...` of the list (strict cyclic order starting from the
persisted index), and each channel is returned exactly `K / N` or
`K / N + 1` times. -/
theorem round_robin (st : PostState) (K : Nat)
    (hi : st.currentChannelIndex < st.channelsList.length)
    (hnd : st.channelsList.Nodup) :
    (runRotation st K).1
      = (List.range K).map
          (fun j => st.channelsList[(st.currentChannelIndex + j) % st.channelsList.length]?)
    ∧ ∀ p, p < st.channelsList.length →
        ((runRotation st K).1).count (st.channelsList[p]?) = K / st.channelsList.length
        ∨ ((runRotation st K).1).count (st.channelsList[p]?)
            = K / st.channelsList.length + 1 := by
  obtain ⟨chs, i, b, lp, ct, sf⟩ := st
  simp only at hi hnd ⊢
  have hseq := runRotation_outputs K chs i b lp ct sf hi
  refine ⟨hseq, ?_⟩
  intro p hp
  have hpos : 0 < chs.length := by omega
  rw [hseq]
  have hcount : ((List.range K).map (fun j => chs[(i + j) % chs.length]?)).count (chs[p]?)
      = List.countP (fun j => decide ((i + j) % chs.length = p)) (List.range K) := by
    rw [List.count_eq_countP, List.countP_map]
    apply List.countP_congr
    intro j _
    simp only [Function.comp]
    rw [beq_iff_eq, decide_eq_true_eq]
    constructor
    · exact fun he => List.getElem?_inj (Nat.mod_lt _ hpos) hnd he
    · intro he; rw [he]
  rw [hcount]
  have hchunks := countP_range_chunks chs.length i p (K / chs.length) (K % chs.length)
  rw [Nat.div_add_mod K chs.length] at hchunks
  rw [hchunks, countP_range_cycle chs.length i p hi hp]
  have hle : List.countP (fun j => decide ((i + j) % chs.length = p))
      (List.range (K % chs.length)) ≤ 1 := by
    calc List.countP (fun j => decide ((i + j) % chs.length = p)) (List.range (K % chs.length))
        ≤ List.countP (fun j => decide ((i + j) % chs.length = p)) (List.range chs.length) :=
          List.Sublist.countP_le _ (List.range_sublist.mpr (le_of_lt (Nat.mod_lt _ hpos)))
      _ = 1 := countP_range_cycle chs.length i p hi hp
  omega

/-- Witness for `round_robin`: three channels starting at index 1, four
calls — the sequence B, C, A, B in strict cyclic order, so B is selected
4 / 3 + 1 = 2 times and A and C are selected 4 / 3 = 1 time each. -/
theorem round_robin_witness :
    (runRotation ⟨["A", "B", "C"], 1, true, none, [], none⟩ 4).1
      = (List.range 4).map (fun j => (["A", "B", "C"] : List String)[(1 + j) % 3]?)
    ∧ (runRotation ⟨["A", "B", "C"], 1, true, none, [], none⟩ 4).1
      = [some "B", some "C", some "A", some "B"] :=
  ⟨(round_robin ⟨["A", "B", "C"], 1, true, none, [], none⟩ 4 (by decide) (by decide)).1,
   by decide⟩

end Telbot
